import Mathlib

/-!
Verification of the pyansys archive codec (archive.py) against its
natural-language specification.  The Python source is shallowly embedded:
numpy arrays become `List Int` / `List (Int × Int × Int)` values, fallible
code returns `Option` / `Except`, and in-place array updates become
explicit list transformations.
-/

namespace PyAnsys

/-- Model of `np.unique` on an integer array: the distinct values in
ascending order.  The sorting algorithm itself is modelled with insertion
sort (numpy's choice of sort is irrelevant to the result). -/
def npUnique (l : List Int) : List Int := l.dedup.insertionSort (· ≤ ·)

/-- The loop of `write_cmblock` (archive.py lines 563-571), iterating over
`np.diff(items)`.  At step `i` the source reads `items[i-1]`, `items[i]` and
`items[i+1]`; here `pprev` and `prev` carry `items[i-1]` and `items[i]`,
and the head of the third argument is `items[i+1]`.  At `i = 0` the
source's `items[i - 1]` is `items[-1]`, the last item (Python negative
indexing), which the caller passes as the initial `pprev`. -/
def cmLoop : Int → Int → List Int → List Int
  | _, _, [] => []
  | pprev, prev, y :: ys =>
    (if y - prev = 1 then []
     else if pprev + 1 = prev then [-prev, y]
     else [y]) ++ cmLoop prev y ys

/-- Token stream produced by the encoding step of `write_cmblock`
(archive.py lines 559-575): `items = np.unique(items)`, then the run
loop, then the final fixup
`if toprint[-1] != abs(items[-1]): toprint.append(-items[i + 1])`.
Returns `none` where the source raises: an empty items array
(`items[0]` is an IndexError), or a single-item array whose fixup branch
is taken (the loop never ran, so the loop variable `i` is unbound and the
append raises a NameError).  When the loop did run, `items[i + 1]` is the
last item. -/
def cmblockTokens (items0 : List Int) : Option (List Int) :=
  match npUnique items0 with
  | [] => none
  | x :: xs =>
    let L := List.getLastD (x :: xs) 0
    let toprint := x :: cmLoop L x xs
    if List.getLastD toprint 0 = |L| then some toprint
    else
      match xs with
      | [] => none
      | _ :: _ => some (toprint ++ [-L])

/-- List of the integers from `a` to `b` inclusive (empty when `b < a`). -/
def intRange (a b : Int) : List Int :=
  (List.range (b + 1 - a).toNat).map (fun (k : Nat) => a + (k : Int))

/-- Modelled from the spec: the CMBLOCK decoder lives in the C reader
(`_reader`), which is not under src/.  Per spec section 4.4, tokens are
read left to right; a positive value is emitted and becomes the most
recently opened run start, and a negative value `-b` expands the open run
through `b` inclusive.  The first argument is the last value emitted. -/
def cmDecodeAux : Int → List Int → List Int
  | _, [] => []
  | last, t :: ts =>
    if 0 < t then t :: cmDecodeAux t ts
    else intRange (last + 1) (-t) ++ cmDecodeAux (-t) ts

/-- CMBLOCK decode of a full token stream. -/
def cmDecode (ts : List Int) : List Int := cmDecodeAux 0 ts

/-- Clean recursive description of the `write_cmblock` loop output:
`a` is the start of the currently open run and `prev` the last item
consumed.  Proved equal to `cmLoop` on ascending inputs below. -/
def tailTokens : Int → Int → List Int → List Int
  | _, _, [] => []
  | a, prev, y :: ys =>
    if y = prev + 1 then tailTokens a y ys
    else (if a < prev then [-prev, y] else [y]) ++ tailTokens y y ys

/-- Start of the final maximal run of consecutive integers. -/
def lastRunStart : Int → Int → List Int → Int
  | a, _, [] => a
  | a, prev, y :: ys =>
    if y = prev + 1 then lastRunStart a y ys else lastRunStart y y ys

instance {ε α : Type} [DecidableEq ε] [DecidableEq α] : DecidableEq (Except ε α) := fun a b =>
  match a, b with
  | .error e, .error f =>
    if h : e = f then .isTrue (by rw [h]) else .isFalse (fun hh => h (Except.error.inj hh))
  | .ok x, .ok y =>
    if h : x = y then .isTrue (by rw [h]) else .isFalse (fun hh => h (Except.ok.inj hh))
  | .error _, .ok _ => .isFalse (fun hh => Except.noConfusion hh)
  | .ok _, .error _ => .isFalse (fun hh => Except.noConfusion hh)

/-- Model of Python `str.upper()` for the ASCII strings involved. -/
def pyUpper (s : String) : String := ⟨s.data.map Char.toUpper⟩

/-- Errors `write_cmblock` can actually raise. -/
inductive CmWriteError where
  | invalidComponentType : CmWriteError
  | pythonRuntimeError : CmWriteError
deriving DecidableEq

/-- Full fallible surface of `write_cmblock` (archive.py lines 535-602):
the only validation performed is on `comp_type`
(`ValueError` unless it upcases to ELEMENT or NODE); the item values are
never validated.  `pythonRuntimeError` stands for the IndexError/NameError
cases of `cmblockTokens`. -/
def write_cmblock (items : List Int) (compType : String) :
    Except CmWriteError (List Int) :=
  if pyUpper compType ≠ "ELEMENT" ∧ pyUpper compType ≠ "NODE" then
    .error .invalidComponentType
  else
    match cmblockTokens items with
    | none => .error .pythonRuntimeError
    | some t => .ok t



/-- Coordinate triple.  Node positions and angles are modelled as exact
numbers, since no settled claim depends on floating-point rounding. -/
abbrev V3 := Int × Int × Int

/-- Rows written by `write_nblock` (archive.py lines 468-532).  The source
sorts `node_id` with `np.argsort` and reindexes `node_id` and `pos` by the
result, but NOT the `angles` array: the angle rows are column-stacked
against the sorted rows in their original order.  That is mirrored here by
sorting the zipped (id, pos) pairs and zipping the angle rows
positionally.  `np.argsort` is modelled as a comparison sort (the order of
duplicate ids is unspecified in the source).  The fixed-width rendering of
a row is not modelled; a row is the data the format renders. -/
def write_nblock_rows (node_id : List Int) (pos : List V3)
    (angles : Option (List V3)) : List (Int × V3 × Option V3) :=
  let sorted := (node_id.zip pos).insertionSort (fun a b => a.1 ≤ b.1)
  match angles with
  | none => sorted.map (fun ip => (ip.1, ip.2, none))
  | some ang => (sorted.zip ang).map (fun ipa => (ipa.1.1, ipa.1.2, some ipa.2))

/-- VTK cell type id. -/
def VTK_TETRA : Nat := 10
/-- VTK cell type id. -/
def VTK_HEXAHEDRON : Nat := 12
/-- VTK cell type id. -/
def VTK_WEDGE : Nat := 13
/-- VTK cell type id. -/
def VTK_PYRAMID : Nat := 14
/-- VTK cell type id. -/
def VTK_QUADRATIC_TETRA : Nat := 24
/-- VTK cell type id. -/
def VTK_QUADRATIC_HEXAHEDRON : Nat := 25
/-- VTK cell type id. -/
def VTK_QUADRATIC_WEDGE : Nat := 26
/-- VTK cell type id. -/
def VTK_QUADRATIC_PYRAMID : Nat := 27

/-- Node slots written for one cell by `save_as_archive` (archive.py lines
342-461): the per-shape `writenodes` tuples with the duplicate-filling
conventions of the source, and the terminal
`raise Exception('Invalid write cell type %d')` for any other cell type.
Physical line wrapping of the %8d fields is not modelled; the slot
sequence is. -/
def cellWritenodes (celltype : Nat) (typenum : Int) (nodes : List Int) :
    Except String (List Int) :=
  if celltype = VTK_QUADRATIC_TETRA then
    if typenum = 187 then .ok (nodes.take 10)
    else .ok [nodes.getD 0 0, nodes.getD 1 0, nodes.getD 2 0, nodes.getD 2 0,
              nodes.getD 3 0, nodes.getD 3 0, nodes.getD 3 0, nodes.getD 3 0,
              nodes.getD 4 0, nodes.getD 5 0, nodes.getD 3 0, nodes.getD 6 0,
              nodes.getD 3 0, nodes.getD 3 0, nodes.getD 3 0, nodes.getD 3 0,
              nodes.getD 7 0, nodes.getD 8 0, nodes.getD 9 0, nodes.getD 9 0]
  else if celltype = VTK_TETRA then
    .ok [nodes.getD 0 0, nodes.getD 1 0, nodes.getD 2 0, nodes.getD 2 0,
         nodes.getD 3 0, nodes.getD 3 0, nodes.getD 3 0, nodes.getD 3 0]
  else if celltype = VTK_WEDGE then
    .ok [nodes.getD 2 0, nodes.getD 1 0, nodes.getD 0 0, nodes.getD 0 0,
         nodes.getD 5 0, nodes.getD 4 0, nodes.getD 3 0, nodes.getD 3 0]
  else if celltype = VTK_QUADRATIC_WEDGE then
    .ok [nodes.getD 2 0, nodes.getD 1 0, nodes.getD 0 0, nodes.getD 0 0,
         nodes.getD 5 0, nodes.getD 4 0, nodes.getD 3 0, nodes.getD 3 0,
         nodes.getD 7 0, nodes.getD 6 0, nodes.getD 0 0, nodes.getD 8 0,
         nodes.getD 10 0, nodes.getD 9 0, nodes.getD 3 0, nodes.getD 11 0,
         nodes.getD 14 0, nodes.getD 13 0, nodes.getD 12 0, nodes.getD 12 0]
  else if celltype = VTK_QUADRATIC_PYRAMID then
    .ok [nodes.getD 0 0, nodes.getD 1 0, nodes.getD 2 0, nodes.getD 3 0,
         nodes.getD 4 0, nodes.getD 4 0, nodes.getD 4 0, nodes.getD 4 0,
         nodes.getD 5 0, nodes.getD 6 0, nodes.getD 7 0, nodes.getD 8 0,
         nodes.getD 4 0, nodes.getD 4 0, nodes.getD 4 0, nodes.getD 4 0,
         nodes.getD 9 0, nodes.getD 10 0, nodes.getD 11 0, nodes.getD 12 0]
  else if celltype = VTK_PYRAMID then
    .ok [nodes.getD 0 0, nodes.getD 1 0, nodes.getD 2 0, nodes.getD 3 0,
         nodes.getD 4 0, nodes.getD 4 0, nodes.getD 4 0, nodes.getD 4 0]
  else if celltype = VTK_HEXAHEDRON then
    .ok (nodes.take 8)
  else if celltype = VTK_QUADRATIC_HEXAHEDRON then
    .ok (nodes.take 20)
  else .error ("Invalid write cell type " ++ toString celltype)

/-- Modelled from the spec: `fromArchiveSlots` for the linear tetrahedron
(the element parser lives in the C extension `_parser`, not under src/).
Per the spec, the genuine slots of the 8-slot tetrahedron pattern are
0, 1, 2 and 4; slot 3 duplicates slot 2 (K) and slots 5-7 duplicate
slot 4 (M) and are discarded. -/
def tetraFromArchiveSlots (slots : List Int) : List Int :=
  [slots.getD 0 0, slots.getD 1 0, slots.getD 2 0, slots.getD 4 0]

/-- Decidable lexicographic order on coordinate triples, standing in for
the byte order np.unique imposes on row views. -/
def v3Le (a b : V3) : Prop :=
  a.1 < b.1 ∨ (a.1 = b.1 ∧ (a.2.1 < b.2.1 ∨ (a.2.1 = b.2.1 ∧ a.2.2 ≤ b.2.2)))

instance : DecidableRel v3Le := fun a b => by unfold v3Le; exact inferInstance

/-- Position of the first row equal to `r` in `u` (`u.length` when absent);
the index form of `np.unique`'s inverse mapping. -/
def rowIndex : List V3 → V3 → Nat
  | [], _ => 0
  | x :: xs, r => if x = r then 0 else rowIndex xs r + 1

/-- Model of `unique_rows` (archive.py lines 745-752): `np.unique` over the
rows of `a`, returning the unique rows in sorted order together with the
inverse index array `idx2`, the position of each original row among the
unique rows.  Row identity is exact equality, mirroring the byte-pattern
equality of the void view in the source.  The first-occurrence index array
`idx` is used by the caller only through `a[idx]`, which is the unique-row
table itself. -/
def unique_rows (a : List V3) : List V3 × List Nat :=
  let u := a.dedup.insertionSort v3Le
  (u, a.map (fun r => rowIndex u r))

/-- Masked in-place assignment `cells[mask] = repl` for the mask
`cells == -1`: each -1 entry takes the next value of `repl` in order. -/
def fillMasked : List Int → List Int → List Int
  | [], _ => []
  | c :: cs, repl =>
    if c = -1 then repl.headD 0 :: fillMasked cs repl.tail
    else c :: fillMasked cs repl

/-- Number of -1 (unresolved midside) entries of a cell array. -/
def countNeg : List Int → Nat
  | [] => 0
  | c :: cs => (if c = -1 then 1 else 0) + countNeg cs

/-- Tables produced by the midside branch of `raw_to_grid`. -/
structure MidsideOut where
  cells : List Int
  nodes : List V3
  angles : List V3
  nnum : List Int
deriving DecidableEq

/-- Midside synthesis branch of `raw_to_grid` (archive.py lines 664-696).
`cand` holds the candidate midside coordinates, one per -1 entry of
`cells`, in order.  Modelled from the spec: the candidates are computed by
`_relaxmidside.reset_midside` (a C extension, not under src/), which sets
each provisional point to the midpoint of its edge; its output is taken
here as the input `cand`.  `maxnum = numref.max() + 1` is the index one
past the existing point rows, i.e. `nodes.length`.  The source first
assigns provisional indices `arange(maxnum, maxnum + nextra)` to the
masked entries (consumed only by reset_midside) and then overwrites them
with `idxB + maxnum`; only the final assignment is modelled. -/
def midside_merge (cells : List Int) (nodes : List V3) (angles : List V3)
    (nnum : List Int) (cand : List V3) : MidsideOut :=
  { cells := fillMasked cells
      ((unique_rows cand).2.map (fun (k : Nat) => (nodes.length : Int) + (k : Int))),
    nodes := nodes ++ (unique_rows cand).1,
    angles := angles ++ List.replicate (unique_rows cand).1.length (0, 0, 0),
    nnum := nnum ++ List.replicate (unique_rows cand).1.length (-1) }

/-- Right-justified fixed-width decimal rendering, Python `'%Nd'` and
`'{:Nd}'.format`. -/
def fmtI (w : Nat) (n : Int) : String :=
  String.mk (List.replicate (w - (toString n).length) ' ') ++ toString n

/-- Keyword parameters of `save_as_archive` with their source defaults. -/
structure SaveCfg where
  mtype_start : Int := 1
  etype_start : Int := 1
  real_constant_start : Int := 1
  nblock : Bool := true
  enum_start : Int := 1
  nnum_start : Int := 1
  include_etype_header : Bool := true
  reset_etype : Bool := false
  allow_missing : Bool := true
deriving DecidableEq

/-- The vtk.UnstructuredGrid data that `save_as_archive` consumes: point
table, the optional point/cell data arrays (none models an absent key),
the cell type array and per-cell connectivity.  The flat VTK cells/offset
layout is modelled as one point-index list per cell, so that
`nodenum[cells[c:c + nnode]]` becomes a map over the cell's index list. -/
structure Grid where
  points : List V3
  point_node_num : Option (List Int)
  cell_elem_num : Option (List Int)
  cell_material : Option (List Int)
  cell_rcon : Option (List Int)
  cell_etype : Option (List Int)
  cell_typenum : Option (List Int)
  celltypes : List Nat
  conn : List (List Nat)
deriving DecidableEq

/-- grid.number_of_cells. -/
def ncells (g : Grid) : Nat := g.celltypes.length

/-- Masked assignment `arr[arr == -1] = np.arange(s, s + nadd)`: each -1
entry takes the next consecutive value starting at `s`. -/
def fillNeg : List Int → Int → List Int
  | [], _ => []
  | x :: xs, s => if x = -1 then s :: fillNeg xs (s + 1) else x :: fillNeg xs s

/-- numpy `.max()` over a nonempty integer array. -/
def listMax (l : List Int) : Int := l.foldl max (l.headD 0)

/-- Node-number resolution of `save_as_archive` (archive.py lines
173-191): an absent 'ansys_node_num' array is replaced by 1..npoints with
no `allow_missing` check at all; -1 entries in a supplied array raise when
`allow_missing` is false and otherwise are renumbered consecutively from
`max(nodenum.max() + 1, nnum_start)`. -/
def resolve_nodenum (g : Grid) (cfg : SaveCfg) : Except String (List Int) :=
  let nodenum := g.point_node_num.getD
    ((List.range g.points.length).map (fun (i : Nat) => (i : Int) + 1))
  if (-1) ∈ nodenum then
    if ¬ cfg.allow_missing then
      .error "Missing node numbers.  Exiting due allow_missing=False"
    else
      .ok (fillNeg nodenum
        (if cfg.nnum_start > listMax nodenum + 1 then cfg.nnum_start
         else listMax nodenum + 1))
  else .ok nodenum

/-- Element-number resolution (archive.py lines 193-216): an absent
'ansys_elem_num' array raises when `allow_missing` is false and defaults
to 1..ncells otherwise (ignoring `enum_start`, as the source does); -1
entries raise when `allow_missing` is false and otherwise are renumbered
consecutively from `max(enum.max() + 1, enum_start)`. -/
def resolve_enum (g : Grid) (cfg : SaveCfg) : Except String (List Int) :=
  match g.cell_elem_num with
  | some e =>
    if (-1) ∈ e then
      if ¬ cfg.allow_missing then
        .error "-1 encountered in ansys_elem_num.  Exiting due allow_missing=False"
      else
        .ok (fillNeg e
          (if cfg.enum_start > listMax e + 1 then cfg.enum_start
           else listMax e + 1))
    else .ok e
  | none =>
    if ¬ cfg.allow_missing then
      .error "Missing node numbers.  Exiting due allow_missing=False"
    else .ok ((List.range (ncells g)).map (fun (i : Nat) => (i : Int) + 1))

/-- Material-id resolution (archive.py lines 218-228): default 1..ncells
when absent, then -1 entries are set to `mtype_start`. -/
def resolve_mtype (g : Grid) (cfg : SaveCfg) : List Int :=
  let m := g.cell_material.getD
    ((List.range (ncells g)).map (fun (i : Nat) => (i : Int) + 1))
  m.map (fun x => if x = -1 then cfg.mtype_start else x)

/-- Real-constant resolution (archive.py lines 230-240): default 1..ncells
when absent, then -1 entries are set to `real_constant_start`. -/
def resolve_rcon (g : Grid) (cfg : SaveCfg) : List Int :=
  let m := g.cell_rcon.getD
    ((List.range (ncells g)).map (fun (i : Nat) => (i : Int) + 1))
  m.map (fun x => if x = -1 then cfg.real_constant_start else x)

/-- Index of the first occurrence of `a` (length when absent), the
`return_index` value `np.unique` reports for a present value. -/
def firstIdx : List Int → Int → Nat
  | [], _ => 0
  | x :: xs, a => if x = a then 0 else firstIdx xs a + 1

/-- `'ET, %d, %d' % (etype[idx], typenum[idx])` lines for the distinct
user-supplied element types (archive.py lines 252-255): one line per
np.unique value of etype, in ascending order, paired with the typenum at
that value's first occurrence. -/
def etHeaderLines (etype typenum : List Int) : List String :=
  (npUnique etype).map (fun e =>
    "ET, " ++ toString e ++ ", " ++ toString (typenum.getD (firstIdx etype e) 0)
      ++ "\n")

/-- Default element-type assignment (archive.py lines 274-296):
`etype_start + 2` is used for the linear (SOLID185) shapes, `etype_start`
for the quadratic 186 shapes and `etype_start + 1` for quadratic
tetrahedra (187).  The source allocates these arrays with np.empty,
leaving entries of unsupported cell types uninitialized; 0 stands for
those here, and any such cell aborts the element loop before its entry
could be written. -/
def defaultEtypes (g : Grid) (cfg : SaveCfg) : List Int × List Int × List String :=
  let e185 := cfg.etype_start + 2
  let e186 := cfg.etype_start
  let e187 := cfg.etype_start + 1
  let etype := g.celltypes.map (fun ct =>
    if ct = VTK_TETRA ∨ ct = VTK_HEXAHEDRON ∨ ct = VTK_WEDGE ∨ ct = VTK_PYRAMID
    then e185
    else if ct = VTK_QUADRATIC_HEXAHEDRON ∨ ct = VTK_QUADRATIC_WEDGE
        ∨ ct = VTK_QUADRATIC_PYRAMID then e186
    else if ct = VTK_QUADRATIC_TETRA then e187
    else 0)
  (etype,
   etype.map (fun e =>
     if e = e185 then (185 : Int) else if e = e186 then 186
     else if e = e187 then 187 else 0),
   ["ET, " ++ toString e185 ++ ", 185\n",
    "ET, " ++ toString e186 ++ ", 186\n",
    "ET, " ++ toString e187 ++ ", 187\n"])

/-- Element-type resolution (archive.py lines 242-296).  With
'ansys_etype' present and `reset_etype` false, the source reads
`grid.cell_arrays['ansys_elem_type_num']` directly (KeyError when absent),
flags the data invalid if etype contains -1 (ET header lines are emitted
only for valid data) or if some cell of type id below 20 carries typenum
186.  Invalid or missing data raises when `allow_missing` is false and
otherwise falls back to `defaultEtypes`, whose three ET lines are appended
to whatever ET lines were already emitted. -/
def resolve_etype (g : Grid) (cfg : SaveCfg) :
    Except String (List Int × List Int × List String) :=
  match g.cell_etype, cfg.reset_etype with
  | some etype, false =>
    match g.cell_typenum with
    | none => .error "KeyError: ansys_elem_type_num"
    | some typenum =>
      let invalid0 := (-1) ∈ etype
      let lines1 := if cfg.include_etype_header ∧ ¬ invalid0 then
          etHeaderLines etype typenum else []
      if invalid0 ∨ (List.range (ncells g)).any (fun i =>
          decide (g.celltypes.getD i 0 < 20) && decide (typenum.getD i 0 = 186))
      then
        if ¬ cfg.allow_missing then
          .error "Invalid or missing data in ansys_elem_type_num or ansys_etype.  Exiting due allow_missing=False"
        else
          .ok ((defaultEtypes g cfg).1, (defaultEtypes g cfg).2.1,
               lines1 ++ (defaultEtypes g cfg).2.2)
      else .ok (etype, typenum, lines1)
  | _, _ =>
    if ¬ cfg.allow_missing then
      .error "Invalid or missing data in ansys_elem_type_num or ansys_etype.  Exiting due allow_missing=False"
    else
      .ok ((defaultEtypes g cfg).1, (defaultEtypes g cfg).2.1,
           (defaultEtypes g cfg).2.2)

/-- Record written for element `i` (archive.py lines 321-463): the 11
cellinfo fields (material, etype, real constant, section 1, five zero
fields around the node count, element id) and the node slots. -/
def elemRecordAt (g : Grid) (nodenum mtype etype rcon enum elem_nnodes
    typenum : List Int) (i : Nat) : Except String (List Int × List Int) :=
  match cellWritenodes (g.celltypes.getD i 0) (typenum.getD i 0)
      ((g.conn.getD i []).map (fun idx => nodenum.getD idx 0)) with
  | .error e => .error e
  | .ok ws =>
    .ok ([mtype.getD i 0, etype.getD i 0, rcon.getD i 0, 1, 0, 0, 0, 0,
          elem_nnodes.getD i 0, 0, enum.getD i 0], ws)

/-- Left-to-right effectful map over indices, stopping at the first
raised exception. -/
def exceptMapIdx {β : Type} (f : Nat → Except String β) :
    List Nat → Except String (List β)
  | [] => .ok []
  | i :: is =>
    match f i with
    | .error e => .error e
    | .ok y =>
      match exceptMapIdx f is with
      | .error e => .error e
      | .ok ys => .ok (y :: ys)

/-- The source guards the node block with `if write_nblock:`, which tests
the function object `write_nblock` — always truthy — instead of the
parameter `nblock`. -/
def write_nblock_truthy : Bool := true

/-- The archive pieces produced by `save_as_archive`, in writing order. -/
structure ArchiveOut where
  preamble : List String
  nblockRows : List (Int × V3 × Option V3)
  eblockHeader : String
  eblockFmt : String
  elems : List (List Int × List Int)
  footer : String
deriving DecidableEq

/-- `save_as_archive` (archive.py lines 102-465): array resolution, the
/PREP7 + ET header, the node block (written under the always-true
`if write_nblock:` test, see `write_nblock_truthy`), the EBLOCK header
`'EBLOCK,19,SOLID,{:10d},{:10d}'.format(enum[-1], ncells)` with its
`(19i8)` format line, one record per cell and the closing sentinel. -/
def saveArchive (g : Grid) (cfg : SaveCfg) : Except String ArchiveOut :=
  match resolve_nodenum g cfg with
  | .error e => .error e
  | .ok nodenum =>
    match resolve_enum g cfg with
    | .error e => .error e
    | .ok enum =>
      match resolve_etype g cfg with
      | .error e => .error e
      | .ok etl =>
        match exceptMapIdx
            (elemRecordAt g nodenum (resolve_mtype g cfg) etl.1
              (resolve_rcon g cfg) enum
              (etl.2.1.map (fun t =>
                if t = 185 then (8 : Int) else if t = 186 then 20
                else if t = 187 then 10 else 0))
              etl.2.1)
            (List.range (ncells g)) with
        | .error e => .error e
        | .ok elems =>
          .ok { preamble := "/PREP7\n" :: etl.2.2,
                nblockRows := if write_nblock_truthy then
                    write_nblock_rows nodenum g.points none
                  else [],
                eblockHeader := "EBLOCK,19,SOLID," ++ fmtI 10 (enum.getLastD 0)
                  ++ "," ++ fmtI 10 ((ncells g : Nat) : Int),
                eblockFmt := "(19i8)",
                elems := elems,
                footer := "      -1" }

/-- The eight cell types `save_as_archive` can write. -/
def supportedCelltypes : List Nat :=
  [VTK_TETRA, VTK_HEXAHEDRON, VTK_WEDGE, VTK_PYRAMID, VTK_QUADRATIC_TETRA,
   VTK_QUADRATIC_HEXAHEDRON, VTK_QUADRATIC_WEDGE, VTK_QUADRATIC_PYRAMID]

/-- A one-tetrahedron grid with every id array assigned but no
'ansys_node_num' array. -/
def gridNoNodeNum : Grid :=
  { points := [(0, 0, 0), (1, 0, 0), (0, 1, 0), (0, 0, 1)],
    point_node_num := none,
    cell_elem_num := some [1],
    cell_material := some [1],
    cell_rcon := some [1],
    cell_etype := some [1],
    cell_typenum := some [185],
    celltypes := [VTK_TETRA],
    conn := [[0, 1, 2, 3]] }

/-- A two-tetrahedron grid whose element ids [5, 3] are not ascending. -/
def gridEnumDesc : Grid :=
  { points := [(0, 0, 0), (1, 0, 0), (0, 1, 0), (0, 0, 1)],
    point_node_num := some [1, 2, 3, 4],
    cell_elem_num := some [5, 3],
    cell_material := some [1, 1],
    cell_rcon := some [1, 1],
    cell_etype := some [1, 1],
    cell_typenum := some [185, 185],
    celltypes := [VTK_TETRA, VTK_TETRA],
    conn := [[0, 1, 2, 3], [0, 1, 2, 3]] }

/-- A grid whose single cell has the unsupported type id 99. -/
def gridBadCelltype : Grid :=
  { points := [(0, 0, 0)],
    point_node_num := some [1],
    cell_elem_num := some [1],
    cell_material := some [1],
    cell_rcon := some [1],
    cell_etype := some [1],
    cell_typenum := some [185],
    celltypes := [99],
    conn := [[0]] }

/-- A grid whose node-number array holds the unassigned sentinel. -/
def gridNodeNumNeg : Grid :=
  { points := [(0, 0, 0), (1, 0, 0), (0, 1, 0), (0, 0, 1)],
    point_node_num := some [1, -1, 3, -1],
    cell_elem_num := some [1],
    cell_material := some [1],
    cell_rcon := some [1],
    cell_etype := some [1],
    cell_typenum := some [185],
    celltypes := [VTK_TETRA],
    conn := [[0, 1, 2, 3]] }

/-- Tokens still owed for the final run when the loop ends: the fixup
`if toprint[-1] != abs(items[-1])` closes the final run when it has
length at least two. -/
def cmClose (a prev : Int) (xs : List Int) : List Int :=
  if lastRunStart a prev xs = List.getLastD (prev :: xs) 0 then []
  else [-(List.getLastD (prev :: xs) 0)]

lemma npUnique_eq_self {l : List Int} (h : List.Chain' (· < ·) l) : npUnique l = l := by
  have hp : l.Pairwise (· < ·) := List.chain'_iff_pairwise.mp h
  have hnd : l.Nodup := hp.imp ne_of_lt
  have hs : List.Sorted (· ≤ ·) l := hp.imp le_of_lt
  unfold npUnique
  rw [List.dedup_eq_self.mpr hnd]
  exact hs.insertionSort_eq

lemma intRange_of_lt {a b : Int} (h : b < a) : intRange a b = [] := by
  unfold intRange
  have h0 : (b + 1 - a).toNat = 0 := by omega
  rw [h0]
  rfl

lemma intRange_succ_right {a b : Int} (h : a ≤ b + 1) :
    intRange a (b + 1) = intRange a b ++ [b + 1] := by
  unfold intRange
  have h1 : (b + 1 + 1 - a).toNat = (b + 1 - a).toNat + 1 := by omega
  rw [h1, List.range_succ, List.map_append, List.map_singleton]
  have h2 : a + (((b + 1 - a).toNat : Nat) : Int) = b + 1 := by omega
  rw [h2]

lemma cmLoop_eq_tailTokens :
    ∀ (xs : List Int) (pprev prev a : Int), a ≤ prev →
      ((pprev + 1 = prev) ↔ a < prev) →
      cmLoop pprev prev xs = tailTokens a prev xs := by
  intro xs
  induction xs with
  | nil => intro pprev prev a _ _; rfl
  | cons y ys ih =>
    intro pprev prev a hle hiff
    simp only [cmLoop, tailTokens]
    by_cases h1 : y = prev + 1
    · rw [if_pos (by omega : y - prev = 1), if_pos h1, List.nil_append]
      exact ih prev y a (by omega) (by omega)
    · rw [if_neg (by omega : ¬(y - prev = 1)), if_neg h1]
      by_cases h2 : a < prev
      · rw [if_pos (hiff.mpr h2), if_pos h2, ih prev y y (le_refl y) (by omega)]
      · rw [if_neg (fun hc => h2 (hiff.mp hc)), if_neg h2,
            ih prev y y (le_refl y) (by omega)]

lemma tailTokens_getLastD :
    ∀ (xs : List Int) (a prev : Int),
      List.getLastD (tailTokens a prev xs) a = lastRunStart a prev xs := by
  intro xs
  induction xs with
  | nil => intro a prev; rfl
  | cons y ys ih =>
    intro a prev
    simp only [tailTokens, lastRunStart]
    by_cases h1 : y = prev + 1
    · rw [if_pos h1, if_pos h1]
      exact ih a y
    · rw [if_neg h1, if_neg h1]
      by_cases h2 : a < prev
      · rw [if_pos h2]
        show List.getLastD (-prev :: y :: tailTokens y y ys) a = _
        rw [List.getLastD_cons, List.getLastD_cons]
        exact ih y y
      · rw [if_neg h2]
        show List.getLastD (y :: tailTokens y y ys) a = _
        rw [List.getLastD_cons]
        exact ih y y

lemma chain'_head_le_getLastD :
    ∀ (xs : List Int) (x : Int), List.Chain' (· < ·) (x :: xs) →
      x ≤ List.getLastD (x :: xs) 0 := by
  intro xs
  induction xs with
  | nil => intro x _; simp
  | cons y ys ih =>
    intro x h
    have hxy : x < y := (List.chain'_cons.mp h).1
    have h2 := ih y (List.chain'_cons.mp h).2
    rw [List.getLastD_cons, List.getLastD_cons]
    rw [List.getLastD_cons] at h2
    omega

lemma cmClose_nil (a prev : Int) :
    cmClose a prev [] = if a = prev then [] else [-prev] := by
  simp only [cmClose, lastRunStart, List.getLastD_cons, List.getLastD_nil]

lemma cmClose_cons_run (a prev y : Int) (ys : List Int) (h : y = prev + 1) :
    cmClose a prev (y :: ys) = cmClose a y ys := by
  simp only [cmClose, lastRunStart, if_pos h, List.getLastD_cons]

lemma cmClose_cons_brk (a prev y : Int) (ys : List Int) (h : ¬ y = prev + 1) :
    cmClose a prev (y :: ys) = cmClose y y ys := by
  simp only [cmClose, lastRunStart, if_neg h, List.getLastD_cons]

lemma tailTokens_cons_run (a prev y : Int) (ys : List Int) (h : y = prev + 1) :
    tailTokens a prev (y :: ys) = tailTokens a y ys := by
  simp only [tailTokens, if_pos h]

lemma tailTokens_cons_brk (a prev y : Int) (ys : List Int) (h : ¬ y = prev + 1) :
    tailTokens a prev (y :: ys) =
      (if a < prev then [-prev, y] else [y]) ++ tailTokens y y ys := by
  simp only [tailTokens, if_neg h]

lemma cmDecodeAux_tailTokens :
    ∀ (xs : List Int) (a prev : Int), List.Chain' (· < ·) (prev :: xs) →
      0 < a → a ≤ prev →
      cmDecodeAux a (tailTokens a prev xs ++ cmClose a prev xs)
        = intRange (a + 1) prev ++ xs := by
  intro xs
  induction xs with
  | nil =>
    intro a prev _ ha hle
    by_cases h : a = prev
    · subst h
      rw [cmClose_nil, if_pos rfl]
      show cmDecodeAux a [] = intRange (a + 1) a ++ []
      rw [intRange_of_lt (by omega : a < a + 1), List.nil_append]
      rfl
    · rw [cmClose_nil, if_neg h]
      show cmDecodeAux a [-prev] = intRange (a + 1) prev ++ []
      simp only [cmDecodeAux]
      rw [if_neg (by omega : ¬(0 < -prev)), neg_neg, List.append_nil]
  | cons y ys ih =>
    intro a prev hch ha hle
    have hpy : prev < y := (List.chain'_cons.mp hch).1
    have hch' : List.Chain' (· < ·) (y :: ys) := (List.chain'_cons.mp hch).2
    by_cases h1 : y = prev + 1
    · subst h1
      rw [tailTokens_cons_run a prev _ ys rfl, cmClose_cons_run a prev _ ys rfl,
          ih a (prev + 1) hch' ha (by omega),
          ← List.singleton_append, ← List.append_assoc,
          ← intRange_succ_right (by omega : a + 1 ≤ prev + 1)]
    · rw [tailTokens_cons_brk a prev y ys h1, cmClose_cons_brk a prev y ys h1]
      have hih := ih y y hch' (by omega) (le_refl y)
      rw [intRange_of_lt (by omega : y < y + 1), List.nil_append] at hih
      by_cases h2 : a < prev
      · rw [if_pos h2]
        show cmDecodeAux a (-prev :: y :: (tailTokens y y ys ++ cmClose y y ys)) = _
        simp only [cmDecodeAux]
        rw [if_neg (by omega : ¬(0 < -prev)), neg_neg, if_pos (by omega : 0 < y), hih]
      · have heq : a = prev := by omega
        subst heq
        rw [if_neg h2]
        show cmDecodeAux a (y :: (tailTokens y y ys ++ cmClose y y ys)) = _
        simp only [cmDecodeAux]
        rw [if_pos (by omega : 0 < y), hih,
            intRange_of_lt (by omega : a < a + 1), List.nil_append]

lemma tailTokens_chain' :
    ∀ (xs : List Int) (a prev : Int), List.Chain' (· < ·) (prev :: xs) →
      0 < a → a ≤ prev →
      List.Chain' (fun p q => ¬(p < 0 ∧ q < 0))
        (a :: (tailTokens a prev xs ++ cmClose a prev xs)) := by
  intro xs
  induction xs with
  | nil =>
    intro a prev _ ha hle
    by_cases h : a = prev
    · subst h
      rw [cmClose_nil, if_pos rfl]
      exact List.chain'_singleton a
    · rw [cmClose_nil, if_neg h]
      show List.Chain' _ (a :: -prev :: [])
      rw [List.chain'_cons]
      exact ⟨fun hc => by omega, List.chain'_singleton _⟩
  | cons y ys ih =>
    intro a prev hch ha hle
    have hpy : prev < y := (List.chain'_cons.mp hch).1
    have hch' : List.Chain' (· < ·) (y :: ys) := (List.chain'_cons.mp hch).2
    by_cases h1 : y = prev + 1
    · subst h1
      rw [tailTokens_cons_run a prev _ ys rfl, cmClose_cons_run a prev _ ys rfl]
      exact ih a (prev + 1) hch' ha (by omega)
    · rw [tailTokens_cons_brk a prev y ys h1, cmClose_cons_brk a prev y ys h1]
      have hih := ih y y hch' (by omega) (le_refl y)
      by_cases h2 : a < prev
      · rw [if_pos h2]
        show List.Chain' _ (a :: -prev :: y :: (tailTokens y y ys ++ cmClose y y ys))
        rw [List.chain'_cons, List.chain'_cons]
        exact ⟨fun hc => by omega, fun hc => by omega, hih⟩
      · rw [if_neg h2]
        show List.Chain' _ (a :: y :: (tailTokens y y ys ++ cmClose y y ys))
        rw [List.chain'_cons]
        exact ⟨fun hc => by omega, hih⟩


/-- C1: for every nonempty strictly ascending, duplicate-free sequence of
positive integers, decoding the token stream produced by write_cmblock's
encoding step yields the sequence again, and the encoding never emits two
consecutive negative tokens. -/
theorem cmblock_roundtrip (S : List Int) (hne : S ≠ [])
    (hasc : List.Chain' (· < ·) S) (hpos : ∀ x ∈ S, 0 < x) :
    ∃ toks, cmblockTokens S = some toks ∧ cmDecode toks = S ∧
      List.Chain' (fun p q => ¬(p < 0 ∧ q < 0)) toks := by
  match S, hne, hasc, hpos with
  | x :: xs, _, hasc, hpos =>
  have hU : npUnique (x :: xs) = x :: xs := npUnique_eq_self hasc
  have hx : 0 < x := hpos x (by simp)
  have hxL : x ≤ List.getLastD (x :: xs) 0 := chain'_head_le_getLastD xs x hasc
  have hL : 0 < List.getLastD (x :: xs) 0 := by omega
  have habs : |List.getLastD (x :: xs) 0| = List.getLastD (x :: xs) 0 := abs_of_pos hL
  have hbr : cmLoop (List.getLastD (x :: xs) 0) x xs = tailTokens x x xs :=
    cmLoop_eq_tailTokens xs (List.getLastD (x :: xs) 0) x x (le_refl x) (by omega)
  have hgl : List.getLastD (x :: tailTokens x x xs) 0 = lastRunStart x x xs := by
    rw [List.getLastD_cons]
    exact tailTokens_getLastD xs x x
  have hmain := cmDecodeAux_tailTokens xs x x hasc hx (le_refl x)
  have hneg := tailTokens_chain' xs x x hasc hx (le_refl x)
  by_cases hc : lastRunStart x x xs = List.getLastD (x :: xs) 0
  · have hcl0 : cmClose x x xs = [] := by
      unfold cmClose
      rw [if_pos hc]
    rw [hcl0, List.append_nil] at hmain hneg
    rw [intRange_of_lt (by omega : x < x + 1), List.nil_append] at hmain
    refine ⟨x :: tailTokens x x xs, ?_, ?_, hneg⟩
    · show cmblockTokens (x :: xs) = _
      unfold cmblockTokens
      rw [hU]
      show (if List.getLastD (x :: cmLoop (List.getLastD (x :: xs) 0) x xs) 0 =
              |List.getLastD (x :: xs) 0| then _ else _) = _
      rw [hbr, hgl, habs, if_pos hc]
    · show cmDecode (x :: tailTokens x x xs) = x :: xs
      unfold cmDecode
      show cmDecodeAux 0 (x :: tailTokens x x xs) = x :: xs
      simp only [cmDecodeAux]
      rw [if_pos hx, hmain]
  · have hcl1 : cmClose x x xs = [-(List.getLastD (x :: xs) 0)] := by
      unfold cmClose
      rw [if_neg hc]
    rw [hcl1] at hmain hneg
    rw [intRange_of_lt (by omega : x < x + 1), List.nil_append] at hmain
    have hxs_ne : xs ≠ [] := by
      intro h
      apply hc
      subst h
      rfl
    refine ⟨x :: tailTokens x x xs ++ [-(List.getLastD (x :: xs) 0)], ?_, ?_, ?_⟩
    · show cmblockTokens (x :: xs) = _
      unfold cmblockTokens
      rw [hU]
      show (if List.getLastD (x :: cmLoop (List.getLastD (x :: xs) 0) x xs) 0 =
              |List.getLastD (x :: xs) 0| then _ else _) = _
      rw [hbr, hgl, habs, if_neg hc]
      match xs, hxs_ne with
      | y :: ys, _ => rfl
    · show cmDecode (x :: tailTokens x x xs ++ [-(List.getLastD (x :: xs) 0)]) = x :: xs
      unfold cmDecode
      show cmDecodeAux 0 (x :: (tailTokens x x xs ++ [-(List.getLastD (x :: xs) 0)])) = x :: xs
      simp only [cmDecodeAux]
      rw [if_pos hx, hmain]
    · show List.Chain' _ (x :: (tailTokens x x xs ++ [-(List.getLastD (x :: xs) 0)]))
      exact hneg


theorem cmblock_roundtrip_witness :
    ∃ toks, cmblockTokens [1, 2, 3, 5, 7, 8, 9] = some toks ∧
      cmDecode toks = [1, 2, 3, 5, 7, 8, 9] ∧
      List.Chain' (fun p q => ¬(p < 0 ∧ q < 0)) toks :=
  cmblock_roundtrip [1, 2, 3, 5, 7, 8, 9] (by decide)
    (by norm_num [List.chain'_cons, List.chain'_singleton]) (by decide)

/-- C9: concrete encodings. -/
theorem cmblock_concrete_examples :
    cmblockTokens [1, 2, 3, 5, 7, 8, 9] = some [1, -3, 5, 7, -9] ∧
    cmblockTokens [4] = some [4] := by decide

/-- C6 counterexample: an input containing the id 0 is encoded, not rejected. -/
theorem write_cmblock_accepts_zero_id :
    write_cmblock [0] "NODE" = Except.ok [0] := by decide

/-- C6 amended: write_cmblock validates only comp_type; ids are never
checked, and any input whose deduplicated form has at least two entries is
encoded without error, whatever the signs of its ids. -/
theorem write_cmblock_no_id_validation (items : List Int)
    (h : 2 ≤ (npUnique items).length) :
    ∃ toks, write_cmblock items "NODE" = Except.ok toks := by
  obtain ⟨x, y, ys, hu⟩ : ∃ x y ys, npUnique items = x :: y :: ys := by
    match hu : npUnique items with
    | [] => rw [hu] at h; simp at h
    | [x] => rw [hu] at h; simp at h
    | x :: y :: ys => exact ⟨x, y, ys, rfl⟩
  have hsome : ∃ t, cmblockTokens items = some t := by
    by_cases hcond : List.getLastD
        (x :: cmLoop (List.getLastD (x :: y :: ys) 0) x (y :: ys)) 0
        = |List.getLastD (x :: y :: ys) 0|
    · refine ⟨x :: cmLoop (List.getLastD (x :: y :: ys) 0) x (y :: ys), ?_⟩
      unfold cmblockTokens
      rw [hu]
      show (if List.getLastD
          (x :: cmLoop (List.getLastD (x :: y :: ys) 0) x (y :: ys)) 0
          = |List.getLastD (x :: y :: ys) 0| then _ else _) = _
      rw [if_pos hcond]
    · refine ⟨x :: cmLoop (List.getLastD (x :: y :: ys) 0) x (y :: ys)
          ++ [-(List.getLastD (x :: y :: ys) 0)], ?_⟩
      unfold cmblockTokens
      rw [hu]
      show (if List.getLastD
          (x :: cmLoop (List.getLastD (x :: y :: ys) 0) x (y :: ys)) 0
          = |List.getLastD (x :: y :: ys) 0| then _ else _) = _
      rw [if_neg hcond]
  obtain ⟨t, ht⟩ := hsome
  refine ⟨t, ?_⟩
  unfold write_cmblock
  rw [if_neg (by decide), ht]

theorem write_cmblock_no_id_validation_witness :
    ∃ toks, write_cmblock [-3, -2, 1] "NODE" = Except.ok toks :=
  write_cmblock_no_id_validation [-3, -2, 1] (by decide)


/-- C5: concrete evaluation of the write_nblock row builder showing the
angle bug: node ids and positions are sorted into ascending id order, but
the angle rows keep their original order, so node 1 is written with the
angles that belonged to node 2. -/
theorem write_nblock_angles_mispaired :
    write_nblock_rows [2, 1] [(0, 0, 0), (1, 1, 1)]
        (some [(10, 0, 0), (20, 0, 0)]) =
      [(1, (1, 1, 1), some (10, 0, 0)), (2, (0, 0, 0), some (20, 0, 0))] := by
  decide

/-- C3: a linear tetrahedron with compact node list I, J, K, M is written
to the 8-slot pattern I, J, K, K, M, M, M, M, and decoding the pattern
recovers the compact list. -/
theorem tetra_template_fidelity (I J K M typenum : Int) :
    cellWritenodes VTK_TETRA typenum [I, J, K, M]
        = Except.ok [I, J, K, K, M, M, M, M] ∧
      tetraFromArchiveSlots [I, J, K, K, M, M, M, M] = [I, J, K, M] := by
  exact ⟨rfl, rfl⟩


lemma headD_eq_getD_zero {α : Type} (l : List α) (d : α) :
    l.headD d = l.getD 0 d := by
  cases l <;> rfl

lemma tail_getD {α : Type} (l : List α) (k : Nat) (d : α) :
    l.tail.getD k d = l.getD (k + 1) d := by
  cases l <;> rfl

lemma unique_rows_fst_nodup (cand : List V3) : (unique_rows cand).1.Nodup :=
  (List.perm_insertionSort v3Le cand.dedup).symm.nodup (List.nodup_dedup cand)

lemma unique_rows_fst_mem (cand : List V3) (r : V3) :
    r ∈ (unique_rows cand).1 ↔ r ∈ cand := by
  unfold unique_rows
  rw [List.Perm.mem_iff (List.perm_insertionSort v3Le cand.dedup), List.mem_dedup]

lemma fillMasked_length : ∀ (cs repl : List Int),
    (fillMasked cs repl).length = cs.length := by
  intro cs
  induction cs with
  | nil => intro repl; rfl
  | cons c cs ih =>
    intro repl
    simp only [fillMasked]
    by_cases h : c = -1
    · rw [if_pos h]
      simp [ih]
    · rw [if_neg h]
      simp [ih]

lemma fillMasked_getD_ne : ∀ (cs repl : List Int) (i : Nat), i < cs.length →
    cs.getD i 0 ≠ -1 → (fillMasked cs repl).getD i 0 = cs.getD i 0 := by
  intro cs
  induction cs with
  | nil => intro repl i h _; simp at h
  | cons c cs ih =>
    intro repl i hi hne
    simp only [fillMasked]
    match i with
    | 0 =>
      have hc : ¬(c = -1) := by simpa using hne
      rw [if_neg hc]
      rfl
    | Nat.succ j =>
      have hj : j < cs.length := by simpa using hi
      have hne' : cs.getD j 0 ≠ -1 := by simpa using hne
      by_cases h : c = -1
      · rw [if_pos h]
        show (fillMasked cs repl.tail).getD j 0 = (c :: cs).getD (j + 1) 0
        rw [ih repl.tail j hj hne']
        rfl
      · rw [if_neg h]
        show (fillMasked cs repl).getD j 0 = (c :: cs).getD (j + 1) 0
        rw [ih repl j hj hne']
        rfl

lemma fillMasked_getD_eq : ∀ (cs repl : List Int) (i : Nat), i < cs.length →
    cs.getD i 0 = -1 → countNeg (cs.take i) < repl.length →
    (fillMasked cs repl).getD i 0 = repl.getD (countNeg (cs.take i)) 0 := by
  intro cs
  induction cs with
  | nil => intro repl i h _ _; simp at h
  | cons c cs ih =>
    intro repl i hi hmask hbnd
    match i with
    | 0 =>
      have hc : c = -1 := by simpa using hmask
      simp only [fillMasked, if_pos hc, List.take_zero, countNeg,
        List.getD_cons_zero]
      exact headD_eq_getD_zero repl 0
    | Nat.succ j =>
      have hj : j < cs.length := by simpa using hi
      have hmask' : cs.getD j 0 = -1 := by simpa using hmask
      rw [List.take_succ_cons] at hbnd ⊢
      simp only [countNeg] at hbnd ⊢
      by_cases h : c = -1
      · rw [if_pos h] at hbnd ⊢
        have hlen : 0 < repl.length := by omega
        have hb2 : countNeg (cs.take j) < repl.tail.length := by
          rw [List.length_tail]
          omega
        simp only [fillMasked, if_pos h]
        show (fillMasked cs repl.tail).getD j 0 = _
        rw [ih repl.tail j hj hmask' hb2, tail_getD]
        congr 1
        omega
      · rw [if_neg h] at hbnd ⊢
        simp only [fillMasked, if_neg h]
        show (fillMasked cs repl).getD j 0 = _
        rw [ih repl j hj hmask' (by omega)]
        congr 1
        omega

lemma countNeg_take_lt : ∀ (l : List Int) (i : Nat), i < l.length →
    l.getD i 0 = -1 → countNeg (l.take i) < countNeg l := by
  intro l
  induction l with
  | nil => intro i h _; simp at h
  | cons c cs ih =>
    intro i hi hmask
    match i with
    | 0 =>
      have hc : c = -1 := by simpa using hmask
      simp only [List.take_zero, countNeg, if_pos hc]
      omega
    | Nat.succ j =>
      have hj : j < cs.length := by simpa using hi
      have hmask' : cs.getD j 0 = -1 := by simpa using hmask
      rw [List.take_succ_cons]
      simp only [countNeg]
      have := ih j hj hmask'
      omega

lemma getD_replicate {α : Type} (n k : Nat) (hk : k < n) (a d : α) :
    (List.replicate n a).getD k d = a := by
  induction n generalizing k with
  | zero => omega
  | succ m ih =>
    match k with
    | 0 => rfl
    | Nat.succ j =>
      show (List.replicate m a).getD j d = a
      exact ih j (by omega)


lemma getD_map {α β : Type} (f : α → β) (l : List α) (i : Nat)
    (h : i < l.length) (d : β) (d0 : α) :
    (l.map f).getD i d = f (l.getD i d0) := by
  rw [List.getD_eq_getElem _ d (by simpa using h), List.getD_eq_getElem _ d0 h]
  exact List.getElem_map f

lemma rowIndex_lt_length (l : List V3) (a : V3) (h : a ∈ l) :
    rowIndex l a < l.length := by
  induction l with
  | nil => cases h
  | cons b bs ih =>
    simp only [rowIndex]
    by_cases hb : b = a
    · rw [if_pos hb]
      simp
    · rw [if_neg hb]
      have hm : a ∈ bs := by
        rcases List.mem_cons.mp h with h1 | h1
        · exact absurd h1.symm hb
        · exact h1
      have := ih hm
      simp
      omega

lemma getD_rowIndex (l : List V3) (a : V3) (h : a ∈ l) (d : V3) :
    l.getD (rowIndex l a) d = a := by
  induction l with
  | nil => cases h
  | cons b bs ih =>
    simp only [rowIndex]
    by_cases hb : b = a
    · rw [if_pos hb]
      exact hb
    · rw [if_neg hb]
      have hm : a ∈ bs := by
        rcases List.mem_cons.mp h with h1 | h1
        · exact absurd h1.symm hb
        · exact h1
      show bs.getD (rowIndex bs a) d = a
      exact ih hm

lemma unique_rows_snd_getD (cand : List V3) (j : Nat) (hj : j < cand.length) :
    (unique_rows cand).2.getD j 0
      = rowIndex (unique_rows cand).1 (cand.getD j (0, 0, 0)) := by
  show (cand.map (fun r => rowIndex (unique_rows cand).1 r)).getD j 0 = _
  rw [getD_map _ cand j hj 0 ((0, 0, 0) : V3)]

lemma cand_getD_mem_unique (cand : List V3) (j : Nat) (hj : j < cand.length) :
    cand.getD j (0, 0, 0) ∈ (unique_rows cand).1 := by
  refine (unique_rows_fst_mem cand _).mpr ?_
  rw [List.getD_eq_getElem _ _ hj]
  exact List.getElem_mem _

/-- C2: with unresolved (-1) midside references present and force_linear
false, the merge step of raw_to_grid collapses all synthesized candidates
with identical coordinates to exactly one surviving point, remaps every
masked connectivity entry to the index of the surviving point holding its
candidate's coordinates, and appends each surviving point with node number
-1 and zero angles. -/
theorem midside_dedup_remap_append (cells : List Int) (nodes : List V3)
    (angles : List V3) (nnum : List Int) (cand : List V3)
    (hcnt : countNeg cells = cand.length) :
    (unique_rows cand).1.Nodup ∧
    (∀ r, r ∈ (unique_rows cand).1 ↔ r ∈ cand) ∧
    (∀ j, j < cand.length →
      (midside_merge cells nodes angles nnum cand).nodes.getD
          (nodes.length + (unique_rows cand).2.getD j 0) (0, 0, 0)
        = cand.getD j (0, 0, 0)) ∧
    (∀ i j, i < cand.length → j < cand.length →
      ((unique_rows cand).2.getD i 0 = (unique_rows cand).2.getD j 0
        ↔ cand.getD i (0, 0, 0) = cand.getD j (0, 0, 0))) ∧
    (midside_merge cells nodes angles nnum cand).cells.length = cells.length ∧
    (∀ i, i < cells.length → cells.getD i 0 ≠ -1 →
      (midside_merge cells nodes angles nnum cand).cells.getD i 0
        = cells.getD i 0) ∧
    (∀ i, i < cells.length → cells.getD i 0 = -1 →
      (midside_merge cells nodes angles nnum cand).cells.getD i 0
        = (nodes.length : Int)
          + (((unique_rows cand).2.getD (countNeg (cells.take i)) 0 : Nat) : Int)) ∧
    (∀ k, k < (unique_rows cand).1.length →
      (midside_merge cells nodes angles nnum cand).nnum.getD
          (nnum.length + k) 0 = -1 ∧
      (midside_merge cells nodes angles nnum cand).angles.getD
          (angles.length + k) (1, 1, 1) = (0, 0, 0)) := by
  refine ⟨unique_rows_fst_nodup cand, unique_rows_fst_mem cand,
    ?_, ?_, ?_, ?_, ?_, ?_⟩
  · intro j hj
    have hju := cand_getD_mem_unique cand j hj
    show (nodes ++ (unique_rows cand).1).getD
        (nodes.length + (unique_rows cand).2.getD j 0) (0, 0, 0) = _
    rw [unique_rows_snd_getD cand j hj,
      List.getD_append_right _ _ _ _ (by omega)]
    have h1 : nodes.length
        + rowIndex (unique_rows cand).1 (cand.getD j (0, 0, 0))
        - nodes.length
        = rowIndex (unique_rows cand).1 (cand.getD j (0, 0, 0)) := by omega
    rw [h1]
    exact getD_rowIndex _ _ hju _
  · intro i j hi hj
    have hmi := cand_getD_mem_unique cand i hi
    have hmj := cand_getD_mem_unique cand j hj
    rw [unique_rows_snd_getD cand i hi, unique_rows_snd_getD cand j hj]
    constructor
    · intro h
      have h1 := getD_rowIndex _ _ hmi ((0, 0, 0) : V3)
      have h2 := getD_rowIndex _ _ hmj ((0, 0, 0) : V3)
      rw [← h1, ← h2, h]
    · intro h
      rw [h]
  · exact fillMasked_length cells _
  · intro i hi hne
    exact fillMasked_getD_ne cells _ i hi hne
  · intro i hi hmask
    have hlt : countNeg (cells.take i) < cand.length := by
      rw [← hcnt]
      exact countNeg_take_lt cells i hi hmask
    have hcnt2 : countNeg (cells.take i) < (unique_rows cand).2.length := by
      show _ < (cand.map (fun r => rowIndex (unique_rows cand).1 r)).length
      rw [List.length_map]
      exact hlt
    have hbnd : countNeg (cells.take i)
        < ((unique_rows cand).2.map
            (fun (k : Nat) => (nodes.length : Int) + (k : Int))).length := by
      rw [List.length_map]
      exact hcnt2
    show (fillMasked cells _).getD i 0 = _
    rw [fillMasked_getD_eq cells _ i hi hmask hbnd,
      getD_map _ _ _ hcnt2 (0 : Int) (0 : Nat)]
  · intro k hk
    constructor
    · show (nnum ++ List.replicate (unique_rows cand).1.length (-1)).getD
          (nnum.length + k) 0 = -1
      rw [List.getD_append_right _ _ _ _ (by omega)]
      have h1 : nnum.length + k - nnum.length = k := by omega
      rw [h1]
      exact getD_replicate _ k hk _ _
    · show (angles ++ List.replicate (unique_rows cand).1.length ((0, 0, 0) : V3)).getD
          (angles.length + k) ((1, 1, 1) : V3) = ((0, 0, 0) : V3)
      rw [List.getD_append_right _ _ _ _ (by omega)]
      have h1 : angles.length + k - angles.length = k := by omega
      rw [h1]
      exact getD_replicate _ k hk _ _

theorem midside_dedup_remap_append_witness :
    countNeg [0, -1, 1, -1] = 2 ∧
    (∀ j, j < 2 →
      (midside_merge [0, -1, 1, -1] [(0, 0, 0), (2, 0, 0)]
          [(0, 0, 0), (0, 0, 0)] [1, 2]
          [(1, 0, 0), (1, 0, 0)]).nodes.getD
        (2 + (unique_rows [(1, 0, 0), (1, 0, 0)]).2.getD j 0) (0, 0, 0)
        = ([(1, 0, 0), (1, 0, 0)] : List V3).getD j (0, 0, 0)) :=
  ⟨by decide,
    (midside_dedup_remap_append [0, -1, 1, -1] [(0, 0, 0), (2, 0, 0)]
      [(0, 0, 0), (0, 0, 0)] [1, 2] [(1, 0, 0), (1, 0, 0)] (by decide)).2.2.1⟩


lemma exceptMapIdx_ok_length {β : Type} (f : Nat → Except String β) :
    ∀ (l : List Nat) (ys : List β), exceptMapIdx f l = .ok ys →
      ys.length = l.length := by
  intro l
  induction l with
  | nil =>
    intro ys h
    simp only [exceptMapIdx] at h
    rw [← Except.ok.inj h]
    rfl
  | cons i is ih =>
    intro ys h
    simp only [exceptMapIdx] at h
    split at h
    · exact absurd h (by simp)
    · rename_i y hy
      split at h
      · exact absurd h (by simp)
      · rename_i ys' hys
        rw [← Except.ok.inj h]
        simp [ih ys' hys]

lemma exceptMapIdx_ok_forall {β : Type} (f : Nat → Except String β) :
    ∀ (l : List Nat) (ys : List β), exceptMapIdx f l = .ok ys →
      ∀ i ∈ l, (f i).isOk = true := by
  intro l
  induction l with
  | nil => intro ys _ i hi; cases hi
  | cons j is ih =>
    intro ys h i hi
    simp only [exceptMapIdx] at h
    split at h
    · exact absurd h (by simp)
    · rename_i y hy
      split at h
      · exact absurd h (by simp)
      · rename_i ys' hys
        rcases List.mem_cons.mp hi with h1 | h1
        · subst h1
          rw [hy]
          rfl
        · exact ih ys' hys i h1

lemma saveArchive_ok_inv (g : Grid) (cfg : SaveCfg) (out : ArchiveOut)
    (h : saveArchive g cfg = Except.ok out) :
    ∃ nodenum enum etl,
      resolve_nodenum g cfg = Except.ok nodenum ∧
      resolve_enum g cfg = Except.ok enum ∧
      resolve_etype g cfg = Except.ok etl ∧
      out.preamble = "/PREP7\n" :: etl.2.2 ∧
      out.nblockRows = write_nblock_rows nodenum g.points none ∧
      out.eblockHeader = "EBLOCK,19,SOLID," ++ fmtI 10 (enum.getLastD 0)
        ++ "," ++ fmtI 10 ((ncells g : Nat) : Int) ∧
      out.eblockFmt = "(19i8)" ∧
      out.elems.length = ncells g ∧
      (∀ i ∈ List.range (ncells g),
        (elemRecordAt g nodenum (resolve_mtype g cfg) etl.1
          (resolve_rcon g cfg) enum
          (etl.2.1.map (fun t =>
            if t = 185 then (8 : Int) else if t = 186 then 20
            else if t = 187 then 10 else 0))
          etl.2.1 i).isOk = true) := by
  unfold saveArchive at h
  split at h
  · exact absurd h (by simp)
  · rename_i nodenum hn
    split at h
    · exact absurd h (by simp)
    · rename_i enum he
      split at h
      · exact absurd h (by simp)
      · rename_i etl het
        split at h
        · exact absurd h (by simp)
        · rename_i elems hm
          have hout := (Except.ok.inj h).symm
          refine ⟨nodenum, enum, etl, hn, he, het, ?_, ?_, ?_, ?_, ?_, ?_⟩
          · rw [hout]
          · rw [hout]
            show (if write_nblock_truthy = true then
                write_nblock_rows nodenum g.points none else []) = _
            simp [write_nblock_truthy]
          · rw [hout]
          · rw [hout]
          · rw [hout]
            show elems.length = ncells g
            rw [exceptMapIdx_ok_length _ (List.range (ncells g)) elems hm,
              List.length_range]
          · intro i hi
            exact exceptMapIdx_ok_forall _ (List.range (ncells g)) elems hm i hi

lemma chain'_le_mem_getLastD :
    ∀ (l : List Int), List.Chain' (· ≤ ·) l → ∀ x ∈ l, x ≤ List.getLastD l 0 := by
  intro l
  induction l with
  | nil => intro _ x hx; cases hx
  | cons a as ih =>
    intro h x hx
    rw [List.getLastD_cons]
    cases as with
    | nil =>
      rcases List.mem_cons.mp hx with h1 | h1
      · subst h1
        exact le_refl x
      · cases h1
    | cons b bs =>
      have hab : a ≤ b := (List.chain'_cons.mp h).1
      have h2 := ih (List.chain'_cons.mp h).2
      rcases List.mem_cons.mp hx with h1 | h1
      · subst h1
        have hb := h2 b (by simp)
        rw [List.getLastD_cons] at hb ⊢
        omega
      · have hb := h2 x h1
        rw [List.getLastD_cons] at hb ⊢
        omega

/-- C10: save_as_archive produces identical output for both values of the
nblock parameter: the source guards the node block with
`if write_nblock:` — the function object, always truthy — so the flag is
never consulted and the node block is always written. -/
theorem save_nblock_flag_no_effect (g : Grid) (cfg : SaveCfg) (b1 b2 : Bool) :
    saveArchive g { cfg with nblock := b1 }
      = saveArchive g { cfg with nblock := b2 } := rfl

/-- C4 amended: the fourth comma-separated field of the EBLOCK header is
the id of the final cell, `enum[-1]`, not the maximum; the two agree
whenever the element ids are ascending.  The header is followed by the
(19i8) format line. -/
theorem eblock_header_from_last_enum (g : Grid) (cfg : SaveCfg)
    (h : (saveArchive g cfg).isOk = true) :
    ∃ enum, resolve_enum g cfg = Except.ok enum ∧
      (saveArchive g cfg).map (fun o => o.eblockHeader)
        = Except.ok ("EBLOCK,19,SOLID," ++ fmtI 10 (enum.getLastD 0) ++ ","
            ++ fmtI 10 ((ncells g : Nat) : Int)) ∧
      (saveArchive g cfg).map (fun o => o.eblockFmt) = Except.ok "(19i8)" ∧
      (List.Chain' (· ≤ ·) enum → ∀ x ∈ enum, x ≤ enum.getLastD 0) := by
  cases hs : saveArchive g cfg with
  | error e =>
    rw [hs] at h
    simp [Except.isOk, Except.toBool] at h
  | ok out =>
    obtain ⟨nodenum, enum, etl, hn, he, het, hpre, hnb, hhd, hfmt, hlen, hall⟩ :=
      saveArchive_ok_inv g cfg out hs
    refine ⟨enum, he, ?_, ?_, fun hc x hx => chain'_le_mem_getLastD enum hc x hx⟩
    · simp [Except.map, hhd]
    · simp [Except.map, hfmt]

theorem eblock_header_from_last_enum_witness :
    ∃ enum, resolve_enum gridEnumDesc {} = Except.ok enum ∧
      (saveArchive gridEnumDesc {}).map (fun o => o.eblockHeader)
        = Except.ok ("EBLOCK,19,SOLID," ++ fmtI 10 (enum.getLastD 0) ++ ","
            ++ fmtI 10 ((ncells gridEnumDesc : Nat) : Int)) ∧
      (saveArchive gridEnumDesc {}).map (fun o => o.eblockFmt)
        = Except.ok "(19i8)" ∧
      (List.Chain' (· ≤ ·) enum → ∀ x ∈ enum, x ≤ enum.getLastD 0) :=
  eblock_header_from_last_enum gridEnumDesc {} (by decide)

/-- C4 counterexample: for element ids [5, 3] the emitted header carries 3
(the last id), not the maximum 5. -/
theorem eblock_header_not_max :
    (saveArchive gridEnumDesc {}).map (fun o => o.eblockHeader)
        = Except.ok ("EBLOCK,19,SOLID," ++ fmtI 10 3 ++ "," ++ fmtI 10 2) ∧
      listMax [5, 3] = 5 ∧
      "EBLOCK,19,SOLID," ++ fmtI 10 3 ++ "," ++ fmtI 10 2
        ≠ "EBLOCK,19,SOLID," ++ fmtI 10 5 ++ "," ++ fmtI 10 2 :=
  ⟨by decide, by decide, by decide⟩


lemma cellWritenodes_err_of_not_mem (ct : Nat) (tn : Int) (ns : List Int)
    (h : ct ∉ supportedCelltypes) : (cellWritenodes ct tn ns).isOk = false := by
  have h1 : ¬ ct = VTK_QUADRATIC_TETRA := fun hc => h (by rw [hc]; decide)
  have h2 : ¬ ct = VTK_TETRA := fun hc => h (by rw [hc]; decide)
  have h3 : ¬ ct = VTK_WEDGE := fun hc => h (by rw [hc]; decide)
  have h4 : ¬ ct = VTK_QUADRATIC_WEDGE := fun hc => h (by rw [hc]; decide)
  have h5 : ¬ ct = VTK_QUADRATIC_PYRAMID := fun hc => h (by rw [hc]; decide)
  have h6 : ¬ ct = VTK_PYRAMID := fun hc => h (by rw [hc]; decide)
  have h7 : ¬ ct = VTK_HEXAHEDRON := fun hc => h (by rw [hc]; decide)
  have h8 : ¬ ct = VTK_QUADRATIC_HEXAHEDRON := fun hc => h (by rw [hc]; decide)
  unfold cellWritenodes
  rw [if_neg h1, if_neg h2, if_neg h3, if_neg h4, if_neg h5, if_neg h6,
    if_neg h7, if_neg h8]
  rfl

lemma elemRecordAt_isOk_eq (g : Grid)
    (nodenum mtype etype rcon enum en tn : List Int) (i : Nat) :
    (elemRecordAt g nodenum mtype etype rcon enum en tn i).isOk
      = (cellWritenodes (g.celltypes.getD i 0) (tn.getD i 0)
          ((g.conn.getD i []).map (fun idx => nodenum.getD idx 0))).isOk := by
  unfold elemRecordAt
  split
  · rename_i e hc
    rw [hc]
    rfl
  · rename_i ws hc
    rw [hc]
    rfl

lemma saveArchive_ok_celltypes_supported (g : Grid) (cfg : SaveCfg)
    (out : ArchiveOut) (hs : saveArchive g cfg = Except.ok out) :
    ∀ t ∈ g.celltypes, t ∈ supportedCelltypes := by
  intro t ht
  obtain ⟨nodenum, enum, etl, hn, he, het, hpre, hnb, hhd, hfmt, hlen, hall⟩ :=
    saveArchive_ok_inv g cfg out hs
  obtain ⟨i, hilt, hit⟩ := List.getElem_of_mem ht
  have hok := hall i (List.mem_range.mpr hilt)
  rw [elemRecordAt_isOk_eq] at hok
  have hgetD : g.celltypes.getD i 0 = t := by
    rw [List.getD_eq_getElem _ _ hilt, hit]
  rw [hgetD] at hok
  by_contra htn
  rw [cellWritenodes_err_of_not_mem t _ _ htn] at hok
  exact absurd hok (by simp)

/-- C8: a grid containing a cell of any unsupported shape never produces
archive output (the element loop raises when it reaches the cell), and a
successful save writes exactly one record per cell, so nothing is
skipped. -/
theorem save_unsupported_celltype_terminal (g : Grid) (cfg : SaveCfg) :
    ((∃ t, t ∈ g.celltypes ∧ t ∉ supportedCelltypes) →
      (saveArchive g cfg).isOk = false) ∧
    (∀ out, saveArchive g cfg = Except.ok out →
      out.elems.length = ncells g ∧ ∀ t ∈ g.celltypes, t ∈ supportedCelltypes) := by
  constructor
  · rintro ⟨t, htmem, htn⟩
    cases hs : saveArchive g cfg with
    | error e => rfl
    | ok out =>
      exact absurd (saveArchive_ok_celltypes_supported g cfg out hs t htmem) htn
  · intro out hs
    obtain ⟨nodenum, enum, etl, hn, he, het, hpre, hnb, hhd, hfmt, hlen, hall⟩ :=
      saveArchive_ok_inv g cfg out hs
    exact ⟨hlen, saveArchive_ok_celltypes_supported g cfg out hs⟩

theorem save_unsupported_celltype_terminal_witness :
    (saveArchive gridBadCelltype {}).isOk = false :=
  (save_unsupported_celltype_terminal gridBadCelltype {}).1
    ⟨99, by decide, by decide⟩


lemma fillNeg_length : ∀ (l : List Int) (s : Int),
    (fillNeg l s).length = l.length := by
  intro l
  induction l with
  | nil => intro s; rfl
  | cons x xs ih =>
    intro s
    simp only [fillNeg]
    by_cases h : x = -1
    · rw [if_pos h]
      simp [ih]
    · rw [if_neg h]
      simp [ih]

lemma fillNeg_getD_ne : ∀ (l : List Int) (s : Int) (i : Nat), i < l.length →
    l.getD i 0 ≠ -1 → (fillNeg l s).getD i 0 = l.getD i 0 := by
  intro l
  induction l with
  | nil => intro s i h _; simp at h
  | cons x xs ih =>
    intro s i hi hne
    simp only [fillNeg]
    match i with
    | 0 =>
      have hx : ¬(x = -1) := by simpa using hne
      rw [if_neg hx]
      rfl
    | Nat.succ j =>
      have hj : j < xs.length := by simpa using hi
      have hne' : xs.getD j 0 ≠ -1 := by simpa using hne
      by_cases h : x = -1
      · rw [if_pos h]
        show (fillNeg xs (s + 1)).getD j 0 = (x :: xs).getD (j + 1) 0
        rw [ih (s + 1) j hj hne']
        rfl
      · rw [if_neg h]
        show (fillNeg xs s).getD j 0 = (x :: xs).getD (j + 1) 0
        rw [ih s j hj hne']
        rfl

lemma fillNeg_getD_eq : ∀ (l : List Int) (s : Int) (i : Nat), i < l.length →
    l.getD i 0 = -1 →
    (fillNeg l s).getD i 0 = s + (countNeg (l.take i) : Int) := by
  intro l
  induction l with
  | nil => intro s i h _; simp at h
  | cons x xs ih =>
    intro s i hi hmask
    match i with
    | 0 =>
      have hx : x = -1 := by simpa using hmask
      simp only [fillNeg, if_pos hx, List.take_zero, countNeg,
        List.getD_cons_zero]
      omega
    | Nat.succ j =>
      have hj : j < xs.length := by simpa using hi
      have hmask' : xs.getD j 0 = -1 := by simpa using hmask
      rw [List.take_succ_cons]
      simp only [countNeg]
      by_cases h : x = -1
      · simp only [fillNeg, if_pos h]
        show (fillNeg xs (s + 1)).getD j 0 = _
        rw [ih (s + 1) j hj hmask']
        omega
      · simp only [fillNeg, if_neg h]
        show (fillNeg xs s).getD j 0 = _
        rw [ih s j hj hmask']
        omega

lemma saveArchive_isOk_false_of_nodenum (g : Grid) (cfg : SaveCfg) (e : String)
    (h : resolve_nodenum g cfg = Except.error e) :
    (saveArchive g cfg).isOk = false := by
  unfold saveArchive
  rw [h]
  rfl

lemma saveArchive_isOk_false_of_enum (g : Grid) (cfg : SaveCfg)
    (nodenum : List Int) (e : String)
    (hn : resolve_nodenum g cfg = Except.ok nodenum)
    (h : resolve_enum g cfg = Except.error e) :
    (saveArchive g cfg).isOk = false := by
  unfold saveArchive
  rw [hn, h]
  rfl

/-- C7 amended: with allow_missing false, a -1 in a supplied node-number
array, an absent element-number array, or a -1 in a supplied
element-number array each abort the save; an absent node-number array is
NOT an error and is silently auto-numbered 1..npoints whatever
allow_missing says; with allow_missing true, every -1 id is replaced by
fresh consecutive ids starting above the maximum existing id (or at the
configured start value when that is larger). -/
theorem save_allow_missing_policy (g : Grid) (cfg : SaveCfg) :
    (∀ ns, cfg.allow_missing = false → g.point_node_num = some ns →
      (-1) ∈ ns → (saveArchive g cfg).isOk = false) ∧
    (cfg.allow_missing = false → g.cell_elem_num = none →
      (saveArchive g cfg).isOk = false) ∧
    (∀ es, cfg.allow_missing = false → g.cell_elem_num = some es →
      (-1) ∈ es → (saveArchive g cfg).isOk = false) ∧
    (g.point_node_num = none →
      resolve_nodenum g cfg = Except.ok
        ((List.range g.points.length).map (fun (i : Nat) => (i : Int) + 1))) ∧
    (∀ ns, cfg.allow_missing = true → g.point_node_num = some ns → (-1) ∈ ns →
      ∃ r, resolve_nodenum g cfg = Except.ok r ∧
        r.length = ns.length ∧
        (∀ i, i < ns.length → ns.getD i 0 ≠ -1 → r.getD i 0 = ns.getD i 0) ∧
        (∀ i, i < ns.length → ns.getD i 0 = -1 → r.getD i 0
          = (if cfg.nnum_start > listMax ns + 1 then cfg.nnum_start
             else listMax ns + 1) + (countNeg (ns.take i) : Int))) ∧
    (∀ es, cfg.allow_missing = true → g.cell_elem_num = some es → (-1) ∈ es →
      ∃ r, resolve_enum g cfg = Except.ok r ∧
        r.length = es.length ∧
        (∀ i, i < es.length → es.getD i 0 ≠ -1 → r.getD i 0 = es.getD i 0) ∧
        (∀ i, i < es.length → es.getD i 0 = -1 → r.getD i 0
          = (if cfg.enum_start > listMax es + 1 then cfg.enum_start
             else listMax es + 1) + (countNeg (es.take i) : Int))) := by
  refine ⟨?_, ?_, ?_, ?_, ?_, ?_⟩
  · intro ns hcfg hg hm
    apply saveArchive_isOk_false_of_nodenum g cfg
      "Missing node numbers.  Exiting due allow_missing=False"
    simp only [resolve_nodenum, hg, Option.getD_some]
    rw [if_pos hm, if_pos (by simp [hcfg])]
  · intro hcfg hg
    cases hn : resolve_nodenum g cfg with
    | error e => exact saveArchive_isOk_false_of_nodenum g cfg e hn
    | ok nodenum =>
      apply saveArchive_isOk_false_of_enum g cfg nodenum
        "Missing node numbers.  Exiting due allow_missing=False" hn
      simp only [resolve_enum, hg]
      rw [if_pos (by simp [hcfg])]
  · intro es hcfg hg hm
    cases hn : resolve_nodenum g cfg with
    | error e => exact saveArchive_isOk_false_of_nodenum g cfg e hn
    | ok nodenum =>
      apply saveArchive_isOk_false_of_enum g cfg nodenum
        "-1 encountered in ansys_elem_num.  Exiting due allow_missing=False" hn
      simp only [resolve_enum, hg]
      rw [if_pos hm, if_pos (by simp [hcfg])]
  · intro hg
    simp only [resolve_nodenum, hg, Option.getD_none]
    rw [if_neg ?hmem]
    case hmem =>
      simp only [List.mem_map, List.mem_range]
      rintro ⟨a, _, ha⟩
      omega
  · intro ns hcfg hg hm
    refine ⟨fillNeg ns
      (if cfg.nnum_start > listMax ns + 1 then cfg.nnum_start
       else listMax ns + 1), ?_, fillNeg_length ns _, ?_, ?_⟩
    · simp only [resolve_nodenum, hg, Option.getD_some]
      rw [if_pos hm, if_neg (by simp [hcfg])]
    · intro i hi hne
      exact fillNeg_getD_ne ns _ i hi hne
    · intro i hi hmm
      exact fillNeg_getD_eq ns _ i hi hmm
  · intro es hcfg hg hm
    refine ⟨fillNeg es
      (if cfg.enum_start > listMax es + 1 then cfg.enum_start
       else listMax es + 1), ?_, fillNeg_length es _, ?_, ?_⟩
    · simp only [resolve_enum, hg]
      rw [if_pos hm, if_neg (by simp [hcfg])]
    · intro i hi hne
      exact fillNeg_getD_ne es _ i hi hne
    · intro i hi hmm
      exact fillNeg_getD_eq es _ i hi hmm

theorem save_allow_missing_policy_witness :
    (saveArchive gridNodeNumNeg { allow_missing := false }).isOk = false :=
  (save_allow_missing_policy gridNodeNumNeg { allow_missing := false }).1
    [1, -1, 3, -1] rfl rfl (by decide)

/-- C7 counterexample: with allow_missing false and the node-number array
absent, save_as_archive succeeds (silently auto-numbering the nodes)
instead of failing as the claim states. -/
theorem save_missing_nodenum_autonumbered :
    gridNoNodeNum.point_node_num = none ∧
    (saveArchive gridNoNodeNum { allow_missing := false }).isOk = true :=
  ⟨rfl, by decide⟩

end PyAnsys
